import Mathlib

/-!
Shallow embedding of the medical-graphrag-assistant core, for checking the
specification claims against the code.

Sources embedded:
* `src/cli/chat.py` — the agentic LLM/tool loop (`ChatCLI.query`).
* `scripts/ingest_mimic_cxr.py` — DICOM discovery, embedding retry/mock mode,
  batched insertion, checkpointing.
* `scripts/populate_graphrag_tables.py` — knowledge-graph relationship insertion.
* `Tutorial/App/app.py` — the `/reset` HTTP handler.

Floats are modelled as rationals (`ℚ`); the database tables as lists/finsets;
file-system effects as explicit operation traces; the LLM, the tool executor and
the remote embedding service as function parameters.
-/

/-! ## Agent loop (src/cli/chat.py) -/

/-- One tool call returned by the LLM: the `toolUse` payload
`\x7bname, input, toolUseId\x7d` built in `_call_openai_compatible`. -/
structure ToolCall where
  name : String
  input : String
  toolUseId : String
deriving DecidableEq, Repr

/-- One content block of a Converse-format LLM message: either plain text or a
tool-use request. -/
inductive ContentBlock where
  | text (s : String)
  | toolUse (call : ToolCall)
deriving DecidableEq, Repr

/-- A tool result entry as appended by `ChatCLI.query`: the originating
`toolUseId` together with the tool output (the JSON result, kept abstract as a
string). -/
structure ToolResult where
  toolUseId : String
  content : String
deriving DecidableEq, Repr

/-- The content of one entry of `self.messages`: a plain string (the user
query), the assistant content blocks, or a list of tool results. -/
inductive MsgContent where
  | ofText (s : String)
  | ofBlocks (blocks : List ContentBlock)
  | ofToolResults (results : List ToolResult)
deriving DecidableEq, Repr

/-- One entry of `self.messages`: a role and a content payload. -/
structure Message where
  role : String
  content : MsgContent
deriving DecidableEq, Repr

/-- The normalized LLM response used by the loop: `stopReason` plus the content
blocks of `output.message.content`. -/
structure LLMResponse where
  stopReason : String
  content : List ContentBlock
deriving DecidableEq, Repr

/-- The tool executor (`call_tool` of the MCP server), abstracted as a function
from tool name and input to the result string. -/
abbrev ToolExec := String → String → String

/-- `assistant_text` accumulation of `ChatCLI.query`: concatenation of the
`text` blocks of the response content, in order. -/
def assistantText (content : List ContentBlock) : String :=
  content.foldl
    (fun acc b =>
      match b with
      | .text s => acc ++ s
      | .toolUse _ => acc)
    ""

/-- The tool-use blocks of a response content list, in order. -/
def toolUses (content : List ContentBlock) : List ToolCall :=
  content.filterMap
    (fun b =>
      match b with
      | .toolUse c => some c
      | .text _ => none)

/-- The inner `for block in content` loop of the `tool_use` branch of
`ChatCLI.query`: executes each tool call in order, collecting the
`tool_results` list and the executed calls (the trace) in order. -/
def execToolCalls (ct : ToolExec) (content : List ContentBlock) :
    List ToolResult × List ToolCall :=
  content.foldl
    (fun acc b =>
      match b with
      | .toolUse c => (acc.1 ++ [⟨c.toolUseId, ct c.name c.input⟩], acc.2 ++ [c])
      | .text _ => acc)
    ([], [])

/-- Outcome of one `ChatCLI.query` run: how many times the LLM was invoked,
the terminal assistant text (for `end_turn`), the message printed when the
iteration cap is reached, the final `self.messages` history, and the ordered
trace of executed tool calls. -/
structure QueryResult where
  llmCalls : Nat
  finalAnswer : Option String
  capMessage : Option String
  messages : List Message
  executed : List ToolCall
deriving DecidableEq, Repr

/-- `max_iterations` of `ChatCLI.query`. -/
def max_iterations : Nat := 10

/-- The `for i in range(max_iterations)` loop of `ChatCLI.query`. `fuel` is the
number of remaining iterations; when it runs out the loop falls through to
`print("\nReached maximum iterations.")`. On `end_turn` the answer is printed
and the function returns without appending to the history; on `tool_use` the
assistant content and the tool results (a `user`-role message, Bedrock Converse
format) are appended and the loop continues. -/
def agentLoop (llm : List Message → LLMResponse) (ct : ToolExec) :
    Nat → List Message → List ToolCall → Nat → QueryResult
  | 0, msgs, trace, calls =>
    ⟨calls, none, some "\nReached maximum iterations.", msgs, trace⟩
  | fuel + 1, msgs, trace, calls =>
    let response := llm msgs
    let content := response.content
    if response.stopReason = "end_turn" then
      ⟨calls + 1, some (assistantText content), none, msgs, trace⟩
    else if response.stopReason = "tool_use" then
      let step := execToolCalls ct content
      agentLoop llm ct fuel
        (msgs ++ [⟨"assistant", .ofBlocks content⟩, ⟨"user", .ofToolResults step.1⟩])
        (trace ++ step.2) (calls + 1)
    else
      agentLoop llm ct fuel msgs trace (calls + 1)

/-! ## Vector memory recall (spec §4.11) and memory injection (src/cli/chat.py) -/

/-- A memory item as returned by `VectorMemory.recall`: its text and its
similarity to the current query (a float, modelled as `ℚ`). -/
structure MemoryItem where
  text : String
  similarity : ℚ
deriving DecidableEq, Repr

/-- Insert an item into a list sorted by descending similarity. -/
def insertDesc (m : MemoryItem) : List MemoryItem → List MemoryItem
  | [] => [m]
  | x :: xs =>
    if x.similarity ≤ m.similarity then m :: x :: xs else x :: insertDesc m xs

/-- Sort memory items by descending similarity (insertion sort). -/
def sortBySimilarityDesc : List MemoryItem → List MemoryItem
  | [] => []
  | x :: xs => insertDesc x (sortBySimilarityDesc xs)

/-- Modelled from the spec: `VectorMemory.recall` (the `src/memory` module is
not part of the repository snapshot; only its caller `src/cli/chat.py` is).
Per spec §4.11, recall computes cosine similarity over the stored embeddings
within the session and returns the items sorted by descending similarity,
truncated to `top_k`. The per-item similarity to the query is carried on the
item. -/
def VectorMemory.recall (items : List MemoryItem) (topK : Nat) : List MemoryItem :=
  (sortBySimilarityDesc items).take topK

/-- The `memory_context` construction of `ChatCLI.query`: empty when no
memories were recalled, otherwise a `[RECALLED MEMORY]` block containing one
`- <text>` line for each recalled item with similarity strictly greater than
0.3, closed by `[END MEMORY]`. -/
def buildMemoryContext (memories : List MemoryItem) : String :=
  if memories.isEmpty then ""
  else
    (memories.foldl
      (fun acc m =>
        if 3 / 10 < m.similarity then acc ++ ("- " ++ m.text ++ "\n") else acc)
      "\n[RECALLED MEMORY]\n") ++ "[END MEMORY]\n\n"

/-- The initial user message appended by `ChatCLI.query`: the memory context of
the top-3 recall prepended to the user query. -/
def ChatCLI.initialUserMessage (memItems : List MemoryItem) (userQuery : String) :
    Message :=
  ⟨"user", .ofText (buildMemoryContext (VectorMemory.recall memItems 3) ++ userQuery)⟩

/-- `ChatCLI.query`: recall memories, prepend the memory context to the user
query, append it to the running history, then run the LLM/tool loop with
`max_iterations` fuel. -/
def ChatCLI.query (memItems : List MemoryItem) (userQuery : String)
    (llm : List Message → LLMResponse) (ct : ToolExec) (prior : List Message) :
    QueryResult :=
  agentLoop llm ct max_iterations
    (prior ++ [ChatCLI.initialUserMessage memItems userQuery]) [] 0

/-! ## Ingestion pipeline (scripts/ingest_mimic_cxr.py) -/

/-- A candidate file seen by the recursive walk: the filename stem (`Path.stem`,
i.e. the image id), the extension, the reported size in bytes, and whether
`stat()` succeeds (`statOk = false` models the `OSError` branch of
`find_dicom_files`, where the size cannot be checked). -/
structure DcmFile where
  stem : String
  ext : String
  size : Nat
  statOk : Bool
deriving DecidableEq, Repr

/-- `MAX_FILE_SIZE_MB * 1024 * 1024`: the byte threshold of discovery. -/
def maxFileBytes : Nat := 100 * 1024 * 1024

/-- The scanning loop of `find_dicom_files`. `rglob("*.dcm")` yields only files
with extension `dcm`; a file whose size is checkable and exceeds the threshold
is skipped and counted; otherwise the file is appended, and the loop breaks
once `limit` (when given) is reached. Python treats `limit = 0` like `None`
(`if limit and ...`), so `none` covers both. -/
def findDicomGo (limit : Option Nat) (skipLarge : Bool) :
    List DcmFile → List DcmFile → Nat → List DcmFile × Nat
  | [], acc, skipped => (acc, skipped)
  | f :: rest, acc, skipped =>
    if f.ext ≠ "dcm" then findDicomGo limit skipLarge rest acc skipped
    else if skipLarge ∧ f.statOk ∧ f.size > maxFileBytes then
      findDicomGo limit skipLarge rest acc (skipped + 1)
    else
      let acc2 := acc ++ [f]
      match limit with
      | some l => if acc2.length ≥ l then (acc2, skipped) else findDicomGo limit skipLarge rest acc2 skipped
      | none => findDicomGo limit skipLarge rest acc2 skipped

/-- `find_dicom_files(base_path, limit, skip_large)`: returns the discovered
files and the `skipped_large` counter. The directory tree is modelled as the
list of files in traversal order. -/
def find_dicom_files (files : List DcmFile) (limit : Option Nat) (skipLarge : Bool) :
    List DcmFile × Nat :=
  findDicomGo limit skipLarge files [] 0

/-- A file-system effect performed by checkpointing: either a direct write of a
serialized id set to a path, or a rename. (`save_checkpoint` only ever performs
direct writes; `rename` exists so that the atomic write-temp-then-rename
discipline claimed by the spec is expressible.) -/
inductive FsOp where
  | writeFile (path : String) (ids : Finset String)
  | renameFile (src dst : String)
deriving DecidableEq

/-- True iff the operation is a direct write to `p` (in particular, not a
rename). -/
def FsOp.isDirectWriteTo (p : String) : FsOp → Prop
  | .writeFile q _ => q = p
  | .renameFile _ _ => False

instance (p : String) (op : FsOp) : Decidable (op.isDirectWriteTo p) := by
  cases op <;> simp [FsOp.isDirectWriteTo] <;> infer_instance

/-- The checkpoint path used by `ingest_mimic_cxr`:
`Path(source) / ".ingest_checkpoint.pkl"`. -/
def checkpointPath (source : String) : String :=
  source ++ "/.ingest_checkpoint.pkl"

/-- `save_checkpoint(checkpoint_path, processed_ids)`: a single direct
`open(checkpoint_path, "wb"); pickle.dump(...)` write — no temporary file and
no rename. The result is the list of file-system operations performed. -/
def save_checkpoint (path : String) (processedIds : Finset String) : List FsOp :=
  [FsOp.writeFile path processedIds]

/-! Embedding client retry and mock mode. -/

/-- The remote embedder (`NVCLIPEmbeddings.embed_text`), abstracted as a
function from text to either an embedding vector or a raised exception. -/
abbrev Embedder := String → Except Unit (List ℚ)

/-- The 1024-dimensional zero vector `[0.0] * 1024` used by the mock mode. -/
def zeroVec : List ℚ := List.replicate 1024 0

/-- `MAX_RETRIES`. -/
def MAX_RETRIES : Nat := 3

/-- `RETRY_BASE_DELAY`. -/
def RETRY_BASE_DELAY : Nat := 2

/-- `check_nvclip_health(embedder)`: false for a missing embedder; otherwise
embed the text `"test"` (an exception makes the check fail) and require the
result to have dimension 1024. -/
def check_nvclip_health : Option Embedder → Bool
  | none => false
  | some f =>
    match f "test" with
    | .ok v => v.length == 1024
    | .error _ => false

/-- Outcome of `get_embedder_with_retry`: the embedder (or `None`), the
sequence of back-off sleeps performed (in seconds, in order), and the number of
loop iterations (attempts) executed. -/
structure RetryResult where
  embedder : Option Embedder
  sleeps : List Nat
  attempts : Nat

/-- The `for attempt in range(MAX_RETRIES)` loop of `get_embedder_with_retry`.
`mk attempt` models the `NVCLIPEmbeddings()` constructor at that attempt: a
raised exception takes the `except` branch, which sleeps
`RETRY_BASE_DELAY ** (attempt + 1)` seconds unless this was the last attempt.
A constructed embedder that fails the health check is retried without sleeping. -/
def retryGo (mk : Nat → Except Unit Embedder) :
    Nat → Nat → List Nat → RetryResult
  | 0, attempt, sleeps => ⟨none, sleeps, attempt⟩
  | rem + 1, attempt, sleeps =>
    match mk attempt with
    | .ok e =>
      if check_nvclip_health (some e) then ⟨some e, sleeps, attempt + 1⟩
      else retryGo mk rem (attempt + 1) sleeps
    | .error _ =>
      if attempt < MAX_RETRIES - 1 then
        retryGo mk rem (attempt + 1) (sleeps ++ [RETRY_BASE_DELAY ^ (attempt + 1)])
      else
        retryGo mk rem (attempt + 1) sleeps

/-- `get_embedder_with_retry()`: `None` immediately when the NV-CLIP module is
unavailable, otherwise up to `MAX_RETRIES` attempts; `None` after persistent
failure. -/
def get_embedder_with_retry (available : Bool) (mk : Nat → Except Unit Embedder) :
    RetryResult :=
  if available then retryGo mk MAX_RETRIES 0 [] else ⟨none, [], 0⟩

/-- `batch_embed_texts(embedder, texts)`: with no embedder (or no texts) a list
of 1024-dimensional zero vectors, one per text; otherwise one embedding per
text, with a per-text failure replaced by the zero vector. -/
def batch_embed_texts (e : Option Embedder) (texts : List String) : List (List ℚ) :=
  if e.isNone ∨ texts.isEmpty then texts.map (fun _ => zeroVec)
  else
    match e with
    | none => texts.map (fun _ => zeroVec)
    | some f =>
      texts.map
        (fun t =>
          match f t with
          | .ok v => v
          | .error _ => zeroVec)

/-- Reference form for `batch_embed_texts`: embed one text, falling back to the
zero vector on a missing embedder or a per-text failure. -/
def embedOrZero (e : Option Embedder) (t : String) : List ℚ :=
  match e with
  | none => zeroVec
  | some f =>
    match f t with
    | .ok v => v
    | .error _ => zeroVec

/-! The main ingestion loop. -/

/-- `CHECKPOINT_INTERVAL`. -/
def CHECKPOINT_INTERVAL : Nat := 100

/-- Fuel-based worker for `toBatches` (structural recursion, so that concrete
runs reduce). With `fuel ≥ l.length` the fuel never runs out. -/
def toBatchesGo (batchSize : Nat) : Nat → List DcmFile → List (List DcmFile)
  | 0, _ => []
  | _ + 1, [] => []
  | fuel + 1, f :: rest =>
    (f :: rest.take (batchSize - 1)) :: toBatchesGo batchSize fuel (rest.drop (batchSize - 1))

/-- Split the files to process into the batches produced by
`range(0, len(files_to_process), batch_size)`. A batch size of zero (which
raises in Python) is treated as one. -/
def toBatches (batchSize : Nat) (l : List DcmFile) : List (List DcmFile) :=
  toBatchesGo batchSize l.length l

/-- Cumulative `batch_end` values of a batch list, starting from `start`
images already processed in this run. -/
def cumBatchEnds (start : Nat) : List (List DcmFile) → List Nat
  | [] => []
  | b :: rest => (start + b.length) :: cumBatchEnds (start + b.length) rest

/-- State threaded through the batch loop of `ingest_mimic_cxr`: the
`processed_ids` set, the image ids for which an `INSERT` was executed (in
order), the checkpoint file-system operations (in order), and the `batch_end`
values at which a mid-run checkpoint save fired. -/
structure IngestState where
  processed : Finset String
  insertAttempts : List String
  fsOps : List FsOp
  midSaves : List Nat

/-- One iteration of the `for batch_start in range(...)` loop: run the inserts
(unless `dry_run`), add the batch ids to `processed_ids`, and save a checkpoint
when the cumulative `batch_end` is an exact multiple of `CHECKPOINT_INTERVAL`. -/
def ingestBatchStep (cpPath : String) (dryRun : Bool) (batchEnd : Nat)
    (st : IngestState) (batch : List DcmFile) : IngestState :=
  { processed := st.processed ∪ (batch.map DcmFile.stem).toFinset
    insertAttempts := st.insertAttempts ++ (if dryRun then [] else batch.map DcmFile.stem)
    fsOps := st.fsOps ++
      (if batchEnd % CHECKPOINT_INTERVAL = 0 then
        save_checkpoint cpPath (st.processed ∪ (batch.map DcmFile.stem).toFinset)
      else [])
    midSaves := st.midSaves ++
      (if batchEnd % CHECKPOINT_INTERVAL = 0 then [batchEnd] else []) }

/-- The batch loop, tracking the cumulative processed count. -/
def ingestBatches (cpPath : String) (dryRun : Bool) :
    Nat → IngestState → List (List DcmFile) → IngestState
  | _, st, [] => st
  | done, st, b :: rest =>
    ingestBatches cpPath dryRun (done + b.length)
      (ingestBatchStep cpPath dryRun (done + b.length) st b) rest

/-- The `files_to_process` filter of `ingest_mimic_cxr`: a discovered file is
dropped when `skip_existing` holds and its image id is already in the database
or in the checkpoint set. -/
def filesToProcess (skipExisting : Bool) (existingIds processedIds : Finset String)
    (files : List DcmFile) : List DcmFile :=
  files.filter
    (fun f => ¬ (skipExisting ∧ (f.stem ∈ existingIds ∨ f.stem ∈ processedIds)))

/-- The `files_to_process` list of a run: the checkpoint set and the database
ids are consulted only when `skip_existing` holds (otherwise
`processed_ids = set()` and `existing_ids = set()`). -/
def ingestFilesToProcess (skipExisting : Bool) (files : List DcmFile)
    (dbIds cpIds : Finset String) : List DcmFile :=
  filesToProcess skipExisting (if skipExisting then dbIds else ∅)
    (if skipExisting then cpIds else ∅) files

/-- Result of one `ingest_mimic_cxr` run (the parts relevant to the claims). -/
structure IngestResult where
  insertAttempts : List String
  fsOps : List FsOp
  midSaves : List Nat
  finalProcessed : Finset String

/-- `ingest_mimic_cxr(source, batch_size, skip_existing, dry_run)`, over an
already-discovered file list. `dbIds` is the content of the
`SELECT ImageID FROM VectorSearch.MIMICCXRImages` query; `cpIds` the
checkpoint-file set. The checkpoint set and the database filter are only
consulted when `skip_existing` holds; an empty `files_to_process` returns
before any batch and before any checkpoint save; otherwise the batch loop runs
and a final `save_checkpoint` always fires. -/
def ingest_mimic_cxr (source : String) (batchSize : Nat) (skipExisting dryRun : Bool)
    (files : List DcmFile) (dbIds cpIds : Finset String) : IngestResult :=
  let cpPath := checkpointPath source
  let processed0 := if skipExisting then cpIds else ∅
  if files.isEmpty then ⟨[], [], [], processed0⟩
  else
    let toProc := ingestFilesToProcess skipExisting files dbIds cpIds
    if toProc.isEmpty then ⟨[], [], [], processed0⟩
    else
      let final := ingestBatches cpPath dryRun 0 ⟨processed0, [], [], []⟩ (toBatches batchSize toProc)
      ⟨final.insertAttempts, final.fsOps ++ save_checkpoint cpPath final.processed,
        final.midSaves, final.processed⟩

/-! ## Knowledge-graph relationships (scripts/populate_graphrag_tables.py) -/

/-- One row of `RAG.EntityRelationships` (the auto-increment key and the
timestamp are irrelevant to the claims and omitted; the payload columns are
kept). -/
structure RelRow where
  source : Int
  target : Int
  rtype : String
  confidence : ℚ
  resourceId : Option String
deriving DecidableEq

/-- The duplicate check of `insert_relationship`: does a row with this exact
(source, target, type) triple already exist? -/
def tripleExists (table : List RelRow) (s t : Int) (ty : String) : Bool :=
  table.any (fun r => decide (r.source = s ∧ r.target = t ∧ r.rtype = ty))

/-- `insert_relationship(cursor, source_id, target_id, rel_type, confidence,
resource_id)`: if a row with the triple exists, return `False` and leave the
table unchanged; otherwise append the new row and return `True`. `conf` stands
for the (possibly random) confidence value. -/
def insert_relationship (table : List RelRow) (s t : Int) (ty : String)
    (conf : ℚ) (rid : Option String) : Bool × List RelRow :=
  if tripleExists table s t ty then (false, table)
  else (true, table ++ [⟨s, t, ty, conf, rid⟩])

/-- The uniqueness invariant of `RAG.EntityRelationships`: no two rows share
the same (source, target, type) triple. -/
def uniqueTriples (table : List RelRow) : Prop :=
  table.Pairwise (fun a b => ¬ (a.source = b.source ∧ a.target = b.target ∧ a.rtype = b.rtype))

instance (table : List RelRow) : Decidable (uniqueTriples table) := by
  unfold uniqueTriples
  infer_instance

/-! ## Tutorial app reset handler (Tutorial/App/app.py) -/

/-- The Flask session, as the handlers use it: the session id `sid`, the
stored `patient_id`, and any other fields (opaque key-value pairs). -/
structure Session where
  sid : Option String
  patientId : Option Int
  extra : List (String × String)
deriving DecidableEq, Repr

/-- Python `a or b` over an optional string, where `None` and `""` are falsy. -/
def orFalsy (a : Option String) (b : String) : String :=
  match a with
  | some s => if s = "" then b else s
  | none => b

/-- The session id chosen by `get_bot` when the session has none:
`request.headers.get("X-Session-Id") or request.remote_addr or "anon"`. -/
def chooseSid (header remoteAddr : Option String) : String :=
  orFalsy header (orFalsy remoteAddr "anon")

/-- `get_bot()` as it affects the session: if `session.get("sid")` is falsy
(absent or empty), store a freshly chosen sid; otherwise leave the session
unchanged. (The bot-instance table keyed by sid is process state, not session
state.) -/
def get_bot (s : Session) (header remoteAddr : Option String) : Session :=
  let sidTruthy :=
    match s.sid with
    | some v => v != ""
    | none => false
  if sidTruthy then s else { s with sid := some (chooseSid header remoteAddr) }

/-- Python `str.lower()` (over the characters of the string). -/
def pyLower (s : String) : String := ⟨s.data.map Char.toLower⟩

/-- Default whitespace stripped by Python `str.strip()`. -/
def pyIsSpace (c : Char) : Bool := c = ' ' ∨ c = '\t' ∨ c = '\n' ∨ c = '\r'

/-- Python `str.strip()`: drop leading and trailing whitespace. -/
def pyStrip (s : String) : String :=
  ⟨((s.data.dropWhile pyIsSpace).reverse.dropWhile pyIsSpace).reverse⟩

/-- The `clear_patient` test of the `/reset` handler:
`request.form.get("clear_patient", "false").strip().lower() in ("true", "1", "yes")`. -/
def clearsPatient (clearPatientField : Option String) : Bool :=
  let raw := pyLower (pyStrip (clearPatientField.getD "false"))
  raw = "true" ∨ raw = "1" ∨ raw = "yes"

/-- The JSON body returned by `/reset`. -/
structure ResetResponse where
  ok : Bool
  message : String
deriving DecidableEq, Repr

/-- Result of one `/reset` request: the response, the session after the
request, and whether `bot.reset()` was called. -/
structure ResetOutcome where
  response : ResetResponse
  session : Session
  botResetCalled : Bool
deriving DecidableEq, Repr

/-- The `/reset` handler: fetch (or create) the bot for the session, reset its
conversation state, pop `patient_id` when `clear_patient` is truthy, and
return `ok: true`. -/
def reset (s : Session) (header remoteAddr clearPatientField : Option String) :
    ResetOutcome :=
  let s1 := get_bot s header remoteAddr
  let s2 := if clearsPatient clearPatientField then { s1 with patientId := none } else s1
  ⟨⟨true, "Chat reset."⟩, s2, true⟩

/-! ## Lemmas about the agent loop -/

theorem agentLoop_llmCalls_le (llm : List Message → LLMResponse) (ct : ToolExec) :
    ∀ (fuel : Nat) (msgs : List Message) (trace : List ToolCall) (calls : Nat),
    (agentLoop llm ct fuel msgs trace calls).llmCalls ≤ calls + fuel := by
  intro fuel
  induction fuel with
  | zero => intro msgs trace calls; simp [agentLoop]
  | succ n ih =>
    intro msgs trace calls
    by_cases he : (llm msgs).stopReason = "end_turn"
    · simp only [agentLoop, if_pos he]
      show calls + 1 ≤ calls + (n + 1)
      omega
    · by_cases ht : (llm msgs).stopReason = "tool_use"
      · simp only [agentLoop, if_neg he, if_pos ht]
        exact le_trans (ih _ _ _) (by omega)
      · simp only [agentLoop, if_neg he, if_neg ht]
        exact le_trans (ih _ _ _) (by omega)

theorem agentLoop_cap_of_no_answer (llm : List Message → LLMResponse) (ct : ToolExec) :
    ∀ (fuel : Nat) (msgs : List Message) (trace : List ToolCall) (calls : Nat),
    (agentLoop llm ct fuel msgs trace calls).finalAnswer = none →
    (agentLoop llm ct fuel msgs trace calls).capMessage =
      some "\nReached maximum iterations." := by
  intro fuel
  induction fuel with
  | zero => intro msgs trace calls _; rfl
  | succ n ih =>
    intro msgs trace calls h
    by_cases he : (llm msgs).stopReason = "end_turn"
    · exfalso
      simp only [agentLoop, if_pos he] at h
      exact Option.noConfusion h
    · by_cases ht : (llm msgs).stopReason = "tool_use"
      · simp only [agentLoop, if_neg he, if_pos ht] at h ⊢
        exact ih _ _ _ h
      · simp only [agentLoop, if_neg he, if_neg ht] at h ⊢
        exact ih _ _ _ h

theorem execToolCalls_eq (ct : ToolExec) (content : List ContentBlock) :
    execToolCalls ct content =
      ((toolUses content).map (fun c => ⟨c.toolUseId, ct c.name c.input⟩),
        toolUses content) := by
  suffices h : ∀ (l : List ContentBlock) (acc : List ToolResult × List ToolCall),
      l.foldl
        (fun acc b =>
          match b with
          | .toolUse c => (acc.1 ++ [⟨c.toolUseId, ct c.name c.input⟩], acc.2 ++ [c])
          | .text _ => acc)
        acc =
      (acc.1 ++ (toolUses l).map (fun c => ⟨c.toolUseId, ct c.name c.input⟩),
        acc.2 ++ toolUses l) by
    have := h content ([], [])
    simpa [execToolCalls] using this
  intro l
  induction l with
  | nil => intro acc; simp [toolUses]
  | cons b rest ih =>
    intro acc
    cases b with
    | text s => simpa [toolUses] using ih acc
    | toolUse c => simp [toolUses, ih]

/-- Claim C1 is false as stated: when the loop exhausts its 10 iterations the
terminal message printed is `"\nReached maximum iterations."` (with a trailing
period, and a leading newline from the print formatting), which is not the
string `"Reached maximum iterations"`. Concrete run: an LLM that always
requests tool use and never produces a terminal message. -/
theorem C1_counterexample :
    (ChatCLI.query [] "q" (fun _ => ⟨"tool_use", []⟩) (fun _ _ => "") []).capMessage
        = some "\nReached maximum iterations." ∧
      "\nReached maximum iterations." ≠ "Reached maximum iterations" := by
  constructor
  · decide
  · decide

/-- Claim C1 (amended): for every agent query, the LLM-to-tool loop runs at
most 10 iterations (at most 10 LLM invocations); if no terminal assistant
message is produced within those iterations, the loop stops and prints the
terminal message `"\nReached maximum iterations."` (the claimed text plus a
trailing period and the leading newline of the `print` call). -/
theorem C1_amended (memItems : List MemoryItem) (userQuery : String)
    (llm : List Message → LLMResponse) (ct : ToolExec) (prior : List Message) :
    (ChatCLI.query memItems userQuery llm ct prior).llmCalls ≤ 10 ∧
      ((ChatCLI.query memItems userQuery llm ct prior).finalAnswer = none →
        (ChatCLI.query memItems userQuery llm ct prior).capMessage =
          some "\nReached maximum iterations.") := by
  constructor
  · have h := agentLoop_llmCalls_le llm ct max_iterations
      (prior ++ [ChatCLI.initialUserMessage memItems userQuery]) [] 0
    simpa [ChatCLI.query, max_iterations] using h
  · intro h
    exact agentLoop_cap_of_no_answer llm ct max_iterations
      (prior ++ [ChatCLI.initialUserMessage memItems userQuery]) [] 0 h

/-- Witness for C1 (amended) at a concrete input: an LLM that always requests
tool use exhausts the cap and the cap message is printed. -/
theorem C1_witness :
    (ChatCLI.query [] "w" (fun _ => ⟨"tool_use", []⟩) (fun _ _ => "") []).capMessage
      = some "\nReached maximum iterations." :=
  (C1_amended [] "w" (fun _ => ⟨"tool_use", []⟩) (fun _ _ => "") []).2 (by decide)

/-- Claim C4 is false as stated: tool results are not appended as messages of
role `tool`; they are appended inside a single message of role `user` (Bedrock
Converse format). Concrete run: one tool call, then a terminal answer — the
final history contains the bound tool result in a `user`-role message and no
`tool`-role message at all. -/
theorem C4_counterexample :
    ((ChatCLI.query [] "q4"
        (fun msgs =>
          if msgs.length ≤ 1 then ⟨"tool_use", [.toolUse ⟨"search", "pneumonia", "call_1"⟩]⟩
          else ⟨"end_turn", [.text "done"]⟩)
        (fun _ _ => "result_json") []).messages.any (fun m => m.role = "tool") = false) ∧
      (⟨"user", .ofToolResults [⟨"call_1", "result_json"⟩]⟩ : Message) ∈
        (ChatCLI.query [] "q4"
          (fun msgs =>
            if msgs.length ≤ 1 then ⟨"tool_use", [.toolUse ⟨"search", "pneumonia", "call_1"⟩]⟩
            else ⟨"end_turn", [.text "done"]⟩)
          (fun _ _ => "result_json") []).messages := by
  constructor
  · decide
  · decide

/-- Claim C4 (amended): in a `tool_use` iteration, every tool call of the
response content is executed in the order returned (the executed-call trace is
extended by exactly `toolUses content`, in order); each result is bound to the
originating call id via `toolUseId`; and the results are appended to the
history as one message of role `user` (Bedrock Converse format), preceded by
the `assistant` message carrying the content — not as `tool`-role messages. -/
theorem C4_amended (llm : List Message → LLMResponse) (ct : ToolExec)
    (fuel : Nat) (msgs : List Message) (trace : List ToolCall) (calls : Nat)
    (content : List ContentBlock) (h : llm msgs = ⟨"tool_use", content⟩) :
    agentLoop llm ct (fuel + 1) msgs trace calls =
      agentLoop llm ct fuel
        (msgs ++
          [⟨"assistant", .ofBlocks content⟩,
            ⟨"user", .ofToolResults
              ((toolUses content).map (fun c => ⟨c.toolUseId, ct c.name c.input⟩))⟩])
        (trace ++ toolUses content) (calls + 1) := by
  simp [agentLoop, h, execToolCalls_eq]

/-- Witness for C4 (amended) at a concrete input: one tool-use step rewrites
to the loop on the extended history. -/
theorem C4_witness :
    agentLoop (fun _ => ⟨"tool_use", [.toolUse ⟨"kg", "dm2", "id9"⟩]⟩) (fun _ _ => "ok")
        1 [] [] 0 =
      agentLoop (fun _ => ⟨"tool_use", [.toolUse ⟨"kg", "dm2", "id9"⟩]⟩) (fun _ _ => "ok")
        0
        [⟨"assistant", .ofBlocks [.toolUse ⟨"kg", "dm2", "id9"⟩]⟩,
          ⟨"user", .ofToolResults [⟨"id9", "ok"⟩]⟩]
        [⟨"kg", "dm2", "id9"⟩] 1 := by
  have h := C4_amended (fun _ => ⟨"tool_use", [.toolUse ⟨"kg", "dm2", "id9"⟩]⟩)
    (fun _ _ => "ok") 0 [] [] 0 [.toolUse ⟨"kg", "dm2", "id9"⟩] rfl
  simpa [toolUses] using h

/-! ## Lemmas about memory recall and the memory block -/

theorem mem_insertDesc {b m : MemoryItem} {l : List MemoryItem}
    (h : b ∈ insertDesc m l) : b = m ∨ b ∈ l := by
  induction l with
  | nil => simpa [insertDesc] using h
  | cons x xs ih =>
    by_cases hle : x.similarity ≤ m.similarity
    · simp only [insertDesc, if_pos hle] at h
      rcases List.mem_cons.mp h with rfl | h2
      · exact Or.inl rfl
      · exact Or.inr h2
    · simp only [insertDesc, if_neg hle] at h
      rcases List.mem_cons.mp h with rfl | h2
      · exact Or.inr (List.mem_cons_self _ _)
      · rcases ih h2 with rfl | h3
        · exact Or.inl rfl
        · exact Or.inr (List.mem_cons_of_mem _ h3)

theorem insertDesc_pairwise (m : MemoryItem) (l : List MemoryItem)
    (h : l.Pairwise (fun a b => b.similarity ≤ a.similarity)) :
    (insertDesc m l).Pairwise (fun a b => b.similarity ≤ a.similarity) := by
  induction l with
  | nil => simp [insertDesc]
  | cons x xs ih =>
    rw [List.pairwise_cons] at h
    obtain ⟨hx, hxs⟩ := h
    by_cases hle : x.similarity ≤ m.similarity
    · simp only [insertDesc, if_pos hle]
      refine List.Pairwise.cons ?_ (List.Pairwise.cons hx hxs)
      intro b hb
      rcases List.mem_cons.mp hb with rfl | hb2
      · exact hle
      · exact le_trans (hx b hb2) hle
    · simp only [insertDesc, if_neg hle]
      refine List.Pairwise.cons ?_ (ih hxs)
      intro b hb
      rcases mem_insertDesc hb with rfl | hb2
      · exact le_of_not_le hle
      · exact hx b hb2

theorem sortBySimilarityDesc_pairwise (l : List MemoryItem) :
    (sortBySimilarityDesc l).Pairwise (fun a b => b.similarity ≤ a.similarity) := by
  induction l with
  | nil => simp [sortBySimilarityDesc]
  | cons x xs ih => exact insertDesc_pairwise x _ ih

/-- The lines of the memory block for a given list of included items. -/
def memoryLinesOf : List MemoryItem → String
  | [] => ""
  | m :: ms => ("- " ++ m.text ++ "\n") ++ memoryLinesOf ms

theorem memory_foldl_eq (l : List MemoryItem) (acc : String) :
    l.foldl
        (fun acc m =>
          if 3 / 10 < m.similarity then acc ++ ("- " ++ m.text ++ "\n") else acc)
        acc =
      acc ++ memoryLinesOf (l.filter (fun m => decide ((3 : ℚ) / 10 < m.similarity))) := by
  induction l generalizing acc with
  | nil => simp [memoryLinesOf]
  | cons m ms ih =>
    by_cases hm : (3 : ℚ) / 10 < m.similarity
    · rw [List.foldl_cons, if_pos hm, ih]
      simp [List.filter_cons, hm, memoryLinesOf, String.append_assoc]
    · rw [List.foldl_cons, if_neg hm, ih]
      simp [List.filter_cons, hm]

theorem buildMemoryContext_eq (ms : List MemoryItem) :
    buildMemoryContext ms =
      if ms.isEmpty then ""
      else
        "\n[RECALLED MEMORY]\n" ++
          memoryLinesOf (ms.filter (fun m => decide ((3 : ℚ) / 10 < m.similarity))) ++
          "[END MEMORY]\n\n" := by
  by_cases h : ms.isEmpty
  · simp [buildMemoryContext, h]
  · unfold buildMemoryContext
    rw [if_neg h, if_neg h, memory_foldl_eq, String.append_assoc]

/-- Claim C5 (confirmed, with `VectorMemory.recall` modelled from spec §4.11):
at the start of every agent query the top 3 memory items are recalled (at most
three, in descending similarity order); the `[RECALLED MEMORY]` block contains
exactly the recalled items with similarity strictly greater than 0.3; and that
block is prepended to the user prompt in the initial user message. -/
theorem C5_memory_recall_injection (items : List MemoryItem) (userQuery : String) :
    (VectorMemory.recall items 3).length ≤ 3 ∧
      (VectorMemory.recall items 3).Pairwise (fun a b => b.similarity ≤ a.similarity) ∧
      buildMemoryContext (VectorMemory.recall items 3) =
        (if (VectorMemory.recall items 3).isEmpty then ""
          else
            "\n[RECALLED MEMORY]\n" ++
              memoryLinesOf
                ((VectorMemory.recall items 3).filter
                  (fun m => decide ((3 : ℚ) / 10 < m.similarity))) ++
              "[END MEMORY]\n\n") ∧
      ChatCLI.query items userQuery =
        fun llm ct prior =>
          agentLoop llm ct max_iterations
            (prior ++
              [⟨"user",
                .ofText (buildMemoryContext (VectorMemory.recall items 3) ++ userQuery)⟩])
            [] 0 := by
  refine ⟨?_, ?_, buildMemoryContext_eq _, rfl⟩
  · simp only [VectorMemory.recall, List.length_take]
    exact min_le_left _ _
  · exact List.Pairwise.sublist (List.take_sublist _ _) (sortBySimilarityDesc_pairwise items)

/-! ## Lemmas about DICOM discovery -/

theorem findDicomGo_cons_notdcm {g : DcmFile} (hext : g.ext ≠ "dcm")
    (limit : Option Nat) (sl : Bool) (rest acc : List DcmFile) (k : Nat) :
    findDicomGo limit sl (g :: rest) acc k = findDicomGo limit sl rest acc k := by
  simp [findDicomGo, hext]

theorem findDicomGo_cons_large {g : DcmFile} (hext : g.ext = "dcm")
    (hok : g.statOk = true) (hbig : g.size > maxFileBytes)
    (limit : Option Nat) (rest acc : List DcmFile) (k : Nat) :
    findDicomGo limit true (g :: rest) acc k =
      findDicomGo limit true rest acc (k + 1) := by
  simp [findDicomGo, hext, hok, hbig]

theorem findDicomGo_cons_keep_none {g : DcmFile} (hext : g.ext = "dcm")
    (hnb : ¬ (g.statOk = true ∧ g.size > maxFileBytes))
    (rest acc : List DcmFile) (k : Nat) :
    findDicomGo none true (g :: rest) acc k =
      findDicomGo none true rest (acc ++ [g]) k := by
  simp only [findDicomGo, hext]
  rw [if_neg (by simp), if_neg (by simpa [hext] using hnb)]

theorem findDicomGo_cons_keep_some {g : DcmFile} (hext : g.ext = "dcm")
    (hnb : ¬ (g.statOk = true ∧ g.size > maxFileBytes))
    (lim : Nat) (rest acc : List DcmFile) (k : Nat) :
    findDicomGo (some lim) true (g :: rest) acc k =
      if (acc ++ [g]).length ≥ lim then (acc ++ [g], k)
      else findDicomGo (some lim) true rest (acc ++ [g]) k := by
  simp only [findDicomGo, hext]
  rw [if_neg (by simp), if_neg (by simpa [hext] using hnb)]

theorem findDicomGo_included (limit : Option Nat) :
    ∀ (l acc : List DcmFile) (skipped : Nat),
    (∀ f ∈ acc, f.ext = "dcm" ∧ (f.statOk = true → f.size ≤ maxFileBytes)) →
    ∀ f ∈ (findDicomGo limit true l acc skipped).1,
      f.ext = "dcm" ∧ (f.statOk = true → f.size ≤ maxFileBytes) := by
  intro l
  induction l with
  | nil => intro acc skipped hacc; simpa [findDicomGo] using hacc
  | cons g rest ih =>
    intro acc skipped hacc
    by_cases hext : g.ext = "dcm"
    · by_cases hbig : g.statOk = true ∧ g.size > maxFileBytes
      · rw [findDicomGo_cons_large hext hbig.1 hbig.2]
        exact ih acc (skipped + 1) hacc
      · have hsafe : ∀ f ∈ acc ++ [g],
            f.ext = "dcm" ∧ (f.statOk = true → f.size ≤ maxFileBytes) := by
          intro f hf
          rcases List.mem_append.mp hf with hf2 | hf2
          · exact hacc f hf2
          · rcases List.mem_singleton.mp hf2 with rfl
            refine ⟨hext, fun hok => ?_⟩
            by_contra hgt
            exact hbig ⟨hok, Nat.lt_of_not_le hgt⟩
        cases limit with
        | none =>
          rw [findDicomGo_cons_keep_none hext hbig]
          exact ih (acc ++ [g]) skipped hsafe
        | some lim =>
          rw [findDicomGo_cons_keep_some hext hbig]
          by_cases hlim : (acc ++ [g]).length ≥ lim
          · rw [if_pos hlim]
            exact hsafe
          · rw [if_neg hlim]
            exact ih (acc ++ [g]) skipped hsafe
    · rw [findDicomGo_cons_notdcm hext]
      exact ih acc skipped hacc

theorem findDicomGo_excludes_large :
    ∀ (l acc : List DcmFile) (skipped : Nat) (f : DcmFile),
    f.ext = "dcm" → f.statOk = true → f.size > maxFileBytes → f ∉ acc →
    f ∉ (findDicomGo none true l acc skipped).1 := by
  intro l
  induction l with
  | nil =>
    intro acc skipped f _ _ _ hnotin
    simpa [findDicomGo] using hnotin
  | cons g rest ih =>
    intro acc skipped f hext hok hbig hnotin
    by_cases hgext : g.ext = "dcm"
    · by_cases hgbig : g.statOk = true ∧ g.size > maxFileBytes
      · rw [findDicomGo_cons_large hgext hgbig.1 hgbig.2]
        exact ih acc (skipped + 1) f hext hok hbig hnotin
      · rw [findDicomGo_cons_keep_none hgext hgbig]
        refine ih (acc ++ [g]) skipped f hext hok hbig ?_
        intro hmem
        rcases List.mem_append.mp hmem with hmem2 | hmem2
        · exact hnotin hmem2
        · rcases List.mem_singleton.mp hmem2 with rfl
          exact hgbig ⟨hok, hbig⟩
    · rw [findDicomGo_cons_notdcm hgext]
      exact ih acc skipped f hext hok hbig hnotin

theorem findDicomGo_skipped_count :
    ∀ (l acc : List DcmFile) (skipped : Nat),
    (findDicomGo none true l acc skipped).2 =
      skipped +
        (l.filter
          (fun f => f.ext == "dcm" && f.statOk && decide (f.size > maxFileBytes))).length := by
  intro l
  induction l with
  | nil => intro acc skipped; simp [findDicomGo]
  | cons g rest ih =>
    intro acc skipped
    by_cases hgext : g.ext = "dcm"
    · by_cases hgbig : g.statOk = true ∧ g.size > maxFileBytes
      · rw [findDicomGo_cons_large hgext hgbig.1 hgbig.2, ih]
        simp [List.filter_cons, hgext, hgbig.1, hgbig.2]
        omega
      · rw [findDicomGo_cons_keep_none hgext hgbig, ih]
        have hfalse :
            (g.ext == "dcm" && g.statOk && decide (g.size > maxFileBytes)) = false := by
          by_cases hok : g.statOk = true
          · have hns : ¬ g.size > maxFileBytes := fun hb => hgbig ⟨hok, hb⟩
            simp [hgext, hok, hns]
          · simp [hgext, Bool.eq_false_iff.mpr hok]
        simp [List.filter_cons, hfalse]
    · rw [findDicomGo_cons_notdcm hgext, ih]
      have hfalse :
          (g.ext == "dcm" && g.statOk && decide (g.size > maxFileBytes)) = false := by
        simp [hgext]
      simp [List.filter_cons, hfalse]

/-- Claim C8 is false as stated: a `.dcm` file whose size cannot be read
(`stat()` raises `OSError`) is included by discovery even when it is larger
than 100 MiB — the code comment says "Can't check size, include it anyway". -/
theorem C8_counterexample :
    (⟨"huge", "dcm", 200 * 1024 * 1024, false⟩ : DcmFile) ∈
        (find_dicom_files [⟨"huge", "dcm", 200 * 1024 * 1024, false⟩] none true).1 ∧
      200 * 1024 * 1024 > maxFileBytes := by
  constructor
  · decide
  · decide

/-- Claim C8 (amended): every file included by DICOM discovery has the `.dcm`
suffix and, whenever its size could be read, size at most 100 MiB; every
discovered `.dcm` file whose size could be read and exceeds 100 MiB is
excluded from the result and counted in the skipped-large counter; a file
whose size cannot be read is included regardless of its size. -/
theorem C8_amended (files : List DcmFile) (limit : Option Nat) :
    (∀ f ∈ (find_dicom_files files limit true).1,
        f.ext = "dcm" ∧ (f.statOk = true → f.size ≤ maxFileBytes)) ∧
      (∀ f : DcmFile, f.ext = "dcm" → f.statOk = true → f.size > maxFileBytes →
        f ∉ (find_dicom_files files none true).1) ∧
      (find_dicom_files files none true).2 =
        (files.filter
          (fun f => f.ext == "dcm" && f.statOk && decide (f.size > maxFileBytes))).length := by
  refine ⟨?_, ?_, ?_⟩
  · exact findDicomGo_included limit files [] 0 (by intro f hf; simp at hf)
  · intro f hext hok hbig
    exact findDicomGo_excludes_large files [] 0 f hext hok hbig (by simp)
  · simpa [find_dicom_files] using findDicomGo_skipped_count files [] 0

/-- Witness for C8 (amended) at a concrete input: an oversized `.dcm` file with
readable size is not in the discovery result. -/
theorem C8_witness :
    (⟨"big2", "dcm", 200 * 1024 * 1024, true⟩ : DcmFile) ∉
      (find_dicom_files
        [⟨"ok", "dcm", 5, true⟩, ⟨"big2", "dcm", 200 * 1024 * 1024, true⟩] none true).1 :=
  (C8_amended [⟨"ok", "dcm", 5, true⟩, ⟨"big2", "dcm", 200 * 1024 * 1024, true⟩] none).2.1
    ⟨"big2", "dcm", 200 * 1024 * 1024, true⟩ rfl rfl (by decide)

/-! ## Lemmas about the embedder retry and mock mode -/

theorem retry_attempts_le (mk : Nat → Except Unit Embedder) :
    (retryGo mk 3 0 []).attempts ≤ 3 := by
  rcases h0 : mk 0 with u0 | e0 <;> rcases h1 : mk 1 with u1 | e1 <;>
    rcases h2 : mk 2 with u2 | e2 <;>
    simp [retryGo, h0, h1, h2, MAX_RETRIES, RETRY_BASE_DELAY] <;>
    (repeat' split) <;> simp

theorem retry_sleeps_sublist (mk : Nat → Except Unit Embedder) :
    (retryGo mk 3 0 []).sleeps.Sublist [2, 4] := by
  rcases h0 : mk 0 with u0 | e0 <;> rcases h1 : mk 1 with u1 | e1 <;>
    rcases h2 : mk 2 with u2 | e2 <;>
    simp [retryGo, h0, h1, h2, MAX_RETRIES, RETRY_BASE_DELAY] <;>
    (repeat' split) <;> simp

theorem retry_none_of_unhealthy (mk : Nat → Except Unit Embedder)
    (h : ∀ i e, i < 3 → mk i = Except.ok e → check_nvclip_health (some e) = false) :
    (retryGo mk 3 0 []).embedder = none := by
  rcases h0 : mk 0 with u0 | e0
  · rcases h1 : mk 1 with u1 | e1
    · rcases h2 : mk 2 with u2 | e2
      · simp [retryGo, h0, h1, h2, MAX_RETRIES]
      · simp [retryGo, h0, h1, h2, MAX_RETRIES, h 2 e2 (by norm_num) h2]
    · rcases h2 : mk 2 with u2 | e2
      · simp [retryGo, h0, h1, h2, MAX_RETRIES, h 1 e1 (by norm_num) h1]
      · simp [retryGo, h0, h1, h2, MAX_RETRIES, h 1 e1 (by norm_num) h1,
          h 2 e2 (by norm_num) h2]
  · rcases h1 : mk 1 with u1 | e1
    · rcases h2 : mk 2 with u2 | e2
      · simp [retryGo, h0, h1, h2, MAX_RETRIES, h 0 e0 (by norm_num) h0]
      · simp [retryGo, h0, h1, h2, MAX_RETRIES, h 0 e0 (by norm_num) h0,
          h 2 e2 (by norm_num) h2]
    · rcases h2 : mk 2 with u2 | e2
      · simp [retryGo, h0, h1, h2, MAX_RETRIES, h 0 e0 (by norm_num) h0,
          h 1 e1 (by norm_num) h1]
      · simp [retryGo, h0, h1, h2, MAX_RETRIES, h 0 e0 (by norm_num) h0,
          h 1 e1 (by norm_num) h1, h 2 e2 (by norm_num) h2]

theorem batch_embed_texts_none (texts : List String) :
    batch_embed_texts none texts = texts.map (fun _ => zeroVec) := by
  simp [batch_embed_texts]

theorem zeroVec_length : zeroVec.length = 1024 := by
  unfold zeroVec
  exact List.length_replicate _ _

/-- Claim C7 (confirmed): embedder initialization makes at most `MAX_RETRIES`
(3) attempts; the back-off sleeps form a prefix-pattern of the exponential
schedule base 2 (2 s then 4 s); the health check succeeds exactly when
embedding the text "test" yields a vector of dimension 1024; if every attempt
fails (constructor raises or health check fails) the embedder is `None`; and
with no embedder, every produced embedding is the 1024-dimensional zero
vector. -/
theorem C7_embedder_retry_mock (available : Bool) (mk : Nat → Except Unit Embedder)
    (texts : List String) :
    (get_embedder_with_retry available mk).attempts ≤ MAX_RETRIES ∧
      (get_embedder_with_retry available mk).sleeps.Sublist
        [RETRY_BASE_DELAY ^ 1, RETRY_BASE_DELAY ^ 2] ∧
      ((get_embedder_with_retry available mk).embedder = none →
        batch_embed_texts (get_embedder_with_retry available mk).embedder texts =
          texts.map (fun _ => zeroVec)) ∧
      zeroVec.length = 1024 ∧
      (∀ f : Embedder, check_nvclip_health (some f) = true ↔
        ∃ v, f "test" = Except.ok v ∧ v.length = 1024) ∧
      ((∀ i e, i < MAX_RETRIES → mk i = Except.ok e →
          check_nvclip_health (some e) = false) →
        (get_embedder_with_retry available mk).embedder = none) := by
  have hhealth : ∀ f : Embedder, check_nvclip_health (some f) = true ↔
      ∃ v, f "test" = Except.ok v ∧ v.length = 1024 := by
    intro f
    cases hf : f "test" with
    | error u => simp [check_nvclip_health, hf]
    | ok v => simp [check_nvclip_health, hf]
  cases available with
  | false =>
    have hf : get_embedder_with_retry false mk = ⟨none, [], 0⟩ := rfl
    refine ⟨?_, ?_, ?_, zeroVec_length, hhealth, ?_⟩
    · rw [hf]
      exact Nat.zero_le _
    · rw [hf]
      exact List.nil_sublist _
    · intro h
      rw [h]
      exact batch_embed_texts_none texts
    · intro _
      rw [hf]
  | true =>
    have hg : get_embedder_with_retry true mk = retryGo mk 3 0 [] := rfl
    refine ⟨?_, ?_, ?_, zeroVec_length, hhealth, ?_⟩
    · rw [hg]
      exact retry_attempts_le mk
    · rw [hg]
      exact retry_sleeps_sublist mk
    · intro h
      rw [h]
      exact batch_embed_texts_none texts
    · intro h
      rw [hg]
      exact retry_none_of_unhealthy mk (fun i e hi => h i e hi)

/-- Witness for C7 at a concrete input: a constructor that always raises
exhausts the three attempts and the resulting mock embedder yields the zero
vector for the one text in the batch. -/
theorem C7_witness :
    batch_embed_texts
        (get_embedder_with_retry true (fun _ => Except.error ())).embedder ["x"] =
      ["x"].map (fun _ => zeroVec) :=
  (C7_embedder_retry_mock true (fun _ => Except.error ()) ["x"]).2.2.1 rfl

/-- Claim C9 (confirmed): for every embedder (including the absent one) and
every list of texts, `batch_embed_texts` returns exactly one vector per text
(it is a total function, so it never raises): the embedding of the
corresponding text when the service succeeds, and the 1024-dimensional zero
vector otherwise, keeping batch rows and embeddings aligned. -/
theorem C9_batch_embed_total_aligned (e : Option Embedder) (texts : List String) :
    batch_embed_texts e texts = texts.map (embedOrZero e) ∧
      (batch_embed_texts e texts).length = texts.length ∧
      zeroVec.length = 1024 := by
  have hmap : batch_embed_texts e texts = texts.map (embedOrZero e) := by
    cases e with
    | none =>
      rw [show (embedOrZero (none : Option Embedder)) = (fun _ : String => zeroVec) from
        funext (fun _ => rfl)]
      simp [batch_embed_texts]
    | some f =>
      cases texts with
      | nil => simp [batch_embed_texts]
      | cons t rest => simp [batch_embed_texts, embedOrZero]
  refine ⟨hmap, ?_, zeroVec_length⟩
  rw [hmap]
  exact List.length_map texts _

/-! ## Lemmas about the ingestion batch loop -/

theorem ingestBatchStep_processed (cp : String) (dr : Bool) (be : Nat)
    (st : IngestState) (b : List DcmFile) :
    (ingestBatchStep cp dr be st b).processed =
      st.processed ∪ (b.map DcmFile.stem).toFinset := rfl

theorem ingestBatchStep_fsOps (cp : String) (dr : Bool) (be : Nat)
    (st : IngestState) (b : List DcmFile) :
    (ingestBatchStep cp dr be st b).fsOps =
      st.fsOps ++
        (if be % CHECKPOINT_INTERVAL = 0 then
          [FsOp.writeFile cp (st.processed ∪ (b.map DcmFile.stem).toFinset)]
        else []) := rfl

theorem ingestBatchStep_midSaves (cp : String) (dr : Bool) (be : Nat)
    (st : IngestState) (b : List DcmFile) :
    (ingestBatchStep cp dr be st b).midSaves =
      st.midSaves ++ (if be % CHECKPOINT_INTERVAL = 0 then [be] else []) := rfl

theorem ingestBatches_cons (cp : String) (dr : Bool) (done : Nat)
    (st : IngestState) (b : List DcmFile) (rest : List (List DcmFile)) :
    ingestBatches cp dr done st (b :: rest) =
      ingestBatches cp dr (done + b.length)
        (ingestBatchStep cp dr (done + b.length) st b) rest := rfl

theorem ingestBatches_processed_mono (cp : String) (dr : Bool) :
    ∀ (bs : List (List DcmFile)) (done : Nat) (st : IngestState),
    st.processed ⊆ (ingestBatches cp dr done st bs).processed := by
  intro bs
  induction bs with
  | nil => intro done st; exact Finset.Subset.refl _
  | cons b rest ih =>
    intro done st
    rw [ingestBatches_cons]
    refine Finset.Subset.trans ?_ (ih (done + b.length) _)
    rw [ingestBatchStep_processed]
    exact Finset.subset_union_left

theorem ingestBatches_covers (cp : String) (dr : Bool) :
    ∀ (bs : List (List DcmFile)) (done : Nat) (st : IngestState) (b : List DcmFile)
      (f : DcmFile), b ∈ bs → f ∈ b →
    f.stem ∈ (ingestBatches cp dr done st bs).processed := by
  intro bs
  induction bs with
  | nil => intro done st b f hb; exact absurd hb (List.not_mem_nil b)
  | cons b0 rest ih =>
    intro done st b f hb hf
    rw [ingestBatches_cons]
    rcases List.mem_cons.mp hb with rfl | hb2
    · refine ingestBatches_processed_mono cp dr rest _ _ ?_
      rw [ingestBatchStep_processed]
      refine Finset.mem_union_right _ ?_
      rw [List.mem_toFinset]
      exact List.mem_map_of_mem DcmFile.stem hf
    · exact ih _ _ b f hb2 hf

theorem ingestBatches_fsOps_writes (cp : String) (dr : Bool) :
    ∀ (bs : List (List DcmFile)) (done : Nat) (st : IngestState),
    (∀ op ∈ st.fsOps, op.isDirectWriteTo cp) →
    ∀ op ∈ (ingestBatches cp dr done st bs).fsOps, op.isDirectWriteTo cp := by
  intro bs
  induction bs with
  | nil => intro done st h; exact h
  | cons b rest ih =>
    intro done st h
    rw [ingestBatches_cons]
    refine ih _ _ ?_
    rw [ingestBatchStep_fsOps]
    intro op hop
    rcases List.mem_append.mp hop with h1 | h1
    · exact h op h1
    · by_cases hmod : (done + b.length) % CHECKPOINT_INTERVAL = 0
      · rw [if_pos hmod] at h1
        rcases List.mem_singleton.mp h1 with rfl
        simp [FsOp.isDirectWriteTo]
      · rw [if_neg hmod] at h1
        exact absurd h1 (List.not_mem_nil op)

theorem ingestBatches_midSaves (cp : String) (dr : Bool) :
    ∀ (bs : List (List DcmFile)) (done : Nat) (st : IngestState),
    (ingestBatches cp dr done st bs).midSaves =
      st.midSaves ++
        (cumBatchEnds done bs).filter (fun n => decide (n % CHECKPOINT_INTERVAL = 0)) := by
  intro bs
  induction bs with
  | nil => intro done st; simp [ingestBatches, cumBatchEnds]
  | cons b rest ih =>
    intro done st
    rw [ingestBatches_cons, ih, ingestBatchStep_midSaves]
    by_cases hmod : (done + b.length) % CHECKPOINT_INTERVAL = 0
    · rw [if_pos hmod]
      simp [cumBatchEnds, List.filter_cons, hmod]
    · rw [if_neg hmod]
      simp [cumBatchEnds, List.filter_cons, hmod]

theorem ingestBatches_fsOps_length (cp : String) (dr : Bool) :
    ∀ (bs : List (List DcmFile)) (done : Nat) (st : IngestState),
    (ingestBatches cp dr done st bs).fsOps.length + st.midSaves.length =
      st.fsOps.length + (ingestBatches cp dr done st bs).midSaves.length := by
  intro bs
  induction bs with
  | nil =>
    intro done st
    show st.fsOps.length + st.midSaves.length = st.fsOps.length + st.midSaves.length
    rfl
  | cons b rest ih =>
    intro done st
    rw [ingestBatches_cons]
    have h := ih (done + b.length) (ingestBatchStep cp dr (done + b.length) st b)
    rw [ingestBatchStep_fsOps, ingestBatchStep_midSaves] at h
    by_cases hmod : (done + b.length) % CHECKPOINT_INTERVAL = 0
    · rw [if_pos hmod, if_pos hmod] at h
      simp only [List.length_append, List.length_singleton] at h
      omega
    · rw [if_neg hmod, if_neg hmod] at h
      simp only [List.length_append, List.length_nil] at h
      omega

theorem toBatchesGo_flatten (bs : Nat) :
    ∀ (fuel : Nat) (l : List DcmFile), l.length ≤ fuel →
    (toBatchesGo bs fuel l).flatten = l := by
  intro fuel
  induction fuel with
  | zero =>
    intro l hl
    rw [List.length_eq_zero.mp (Nat.le_zero.mp hl)]
    rfl
  | succ n ih =>
    intro l hl
    cases l with
    | nil => rfl
    | cons f rest =>
      show ((f :: rest.take (bs - 1)) :: toBatchesGo bs n (rest.drop (bs - 1))).flatten = _
      rw [List.flatten_cons]
      rw [ih (rest.drop (bs - 1))
        (by rw [List.length_drop]; exact le_trans (Nat.sub_le _ _) (Nat.lt_succ_iff.mp hl))]
      rw [List.cons_append, List.take_append_drop]

theorem toBatches_flatten (bs : Nat) (l : List DcmFile) :
    (toBatches bs l).flatten = l :=
  toBatchesGo_flatten bs l.length l le_rfl

/-- Characterization: a run over an empty source list does nothing. -/
theorem ingest_eq_of_empty (source : String) (bs : Nat) (skipE dr : Bool)
    (files : List DcmFile) (db cp : Finset String) (h : files.isEmpty = true) :
    ingest_mimic_cxr source bs skipE dr files db cp =
      ⟨[], [], [], if skipE then cp else ∅⟩ := by
  unfold ingest_mimic_cxr
  rw [if_pos h]

/-- Characterization: a run whose `files_to_process` is empty returns before
any batch and before any checkpoint save. -/
theorem ingest_eq_of_no_new (source : String) (bs : Nat) (skipE dr : Bool)
    (files : List DcmFile) (db cp : Finset String)
    (h : (ingestFilesToProcess skipE files db cp).isEmpty = true) :
    ingest_mimic_cxr source bs skipE dr files db cp =
      ⟨[], [], [], if skipE then cp else ∅⟩ := by
  unfold ingest_mimic_cxr
  by_cases hfe : files.isEmpty
  · rw [if_pos hfe]
  · rw [if_neg hfe]
    simp only [h, if_pos]

/-- Characterization: a run with new files executes the batch loop and appends
the final checkpoint save. -/
theorem ingest_eq_of_new (source : String) (bs : Nat) (skipE dr : Bool)
    (files : List DcmFile) (db cp : Finset String)
    (hfe : files.isEmpty = false)
    (h : (ingestFilesToProcess skipE files db cp).isEmpty = false) :
    ingest_mimic_cxr source bs skipE dr files db cp =
      ⟨(ingestBatches (checkpointPath source) dr 0
          ⟨if skipE then cp else ∅, [], [], []⟩
          (toBatches bs (ingestFilesToProcess skipE files db cp))).insertAttempts,
        (ingestBatches (checkpointPath source) dr 0
          ⟨if skipE then cp else ∅, [], [], []⟩
          (toBatches bs (ingestFilesToProcess skipE files db cp))).fsOps ++
          save_checkpoint (checkpointPath source)
            (ingestBatches (checkpointPath source) dr 0
              ⟨if skipE then cp else ∅, [], [], []⟩
              (toBatches bs (ingestFilesToProcess skipE files db cp))).processed,
        (ingestBatches (checkpointPath source) dr 0
          ⟨if skipE then cp else ∅, [], [], []⟩
          (toBatches bs (ingestFilesToProcess skipE files db cp))).midSaves,
        (ingestBatches (checkpointPath source) dr 0
          ⟨if skipE then cp else ∅, [], [], []⟩
          (toBatches bs (ingestFilesToProcess skipE files db cp))).processed⟩ := by
  unfold ingest_mimic_cxr
  rw [if_neg (by simp [hfe])]
  simp only [h]
  rfl

/-- Every file of the source list has, after a run, its image id either in the
database snapshot the run consulted (when `skip_existing`) or in the run's
final processed set. -/
theorem ingest_finalProcessed_covers (source : String) (bs : Nat) (skipE dr : Bool)
    (files : List DcmFile) (db cp : Finset String) :
    ∀ f ∈ files, f.stem ∈ (if skipE then db else (∅ : Finset String)) ∨
      f.stem ∈ (ingest_mimic_cxr source bs skipE dr files db cp).finalProcessed := by
  intro f hf
  have hfe : files.isEmpty = false := by
    cases h : files.isEmpty
    · rfl
    · exact absurd (List.isEmpty_iff.mp h ▸ hf) (List.not_mem_nil f)
  by_cases hkeep : f ∈ ingestFilesToProcess skipE files db cp
  · have hne : (ingestFilesToProcess skipE files db cp).isEmpty = false := by
      cases h2 : (ingestFilesToProcess skipE files db cp).isEmpty
      · rfl
      · exact absurd (List.isEmpty_iff.mp h2 ▸ hkeep) (List.not_mem_nil f)
    rw [ingest_eq_of_new source bs skipE dr files db cp hfe hne]
    right
    have hflat : f ∈ (toBatches bs (ingestFilesToProcess skipE files db cp)).flatten := by
      rw [toBatches_flatten]
      exact hkeep
    rcases List.mem_flatten.mp hflat with ⟨b, hb, hfb⟩
    exact ingestBatches_covers (checkpointPath source) dr _ 0 _ b f hb hfb
  · have hdrop : skipE = true ∧
        (f.stem ∈ (if skipE = true then db else (∅ : Finset String)) ∨
          f.stem ∈ (if skipE = true then cp else (∅ : Finset String))) := by
      by_contra hno
      refine hkeep ?_
      unfold ingestFilesToProcess filesToProcess
      rw [List.mem_filter]
      refine ⟨hf, ?_⟩
      rw [decide_eq_true_eq]
      exact hno
    rcases hdrop.2 with hl | hr
    · left
      exact hl
    · right
      have hcp : f.stem ∈ (if skipE = true then cp else (∅ : Finset String)) := hr
      by_cases hpe : (ingestFilesToProcess skipE files db cp).isEmpty
      · rw [ingest_eq_of_no_new source bs skipE dr files db cp hpe]
        exact hcp
      · rw [ingest_eq_of_new source bs skipE dr files db cp hfe
          (Bool.eq_false_iff.mpr hpe)]
        exact ingestBatches_processed_mono (checkpointPath source) dr _ 0
          ⟨(if skipE then cp else ∅), [], [], []⟩ hcp

/-- Claim C2 is false as stated: the checkpoint is written to
`<ingest_root>/.ingest_checkpoint.pkl` (not `<ingest_root>/.ingest_checkpoint`)
and the write is a single direct overwrite of the file — there is no temporary
file and no rename. Concrete run over one image. -/
theorem C2_counterexample :
    (ingest_mimic_cxr "/data" 32 true false [⟨"img1", "dcm", 1, true⟩] ∅ ∅).fsOps =
        [FsOp.writeFile "/data/.ingest_checkpoint.pkl" {"img1"}] ∧
      "/data/.ingest_checkpoint.pkl" ≠ "/data/.ingest_checkpoint" := by
  constructor
  · decide
  · decide

/-- Claim C2 (amended): every checkpoint file-system operation of an ingestion
run is a direct write (no temporary file, no rename) to
`<ingest_root>/.ingest_checkpoint.pkl`; a mid-run save fires after exactly
those batches whose cumulative processed count is an exact multiple of 100;
and when the run processes at least one file, one final save always follows
the last batch (so saves = mid-run saves + 1). -/
theorem C2_amended (source : String) (bs : Nat) (skipE dr : Bool)
    (files : List DcmFile) (db cp : Finset String) :
    (∀ op ∈ (ingest_mimic_cxr source bs skipE dr files db cp).fsOps,
        op.isDirectWriteTo (checkpointPath source)) ∧
      (ingest_mimic_cxr source bs skipE dr files db cp).midSaves =
        (cumBatchEnds 0 (toBatches bs (ingestFilesToProcess skipE files db cp))).filter
          (fun n => decide (n % CHECKPOINT_INTERVAL = 0)) ∧
      ((ingestFilesToProcess skipE files db cp).isEmpty = false →
        (ingest_mimic_cxr source bs skipE dr files db cp).fsOps.length =
          (ingest_mimic_cxr source bs skipE dr files db cp).midSaves.length + 1) ∧
      checkpointPath source = source ++ "/.ingest_checkpoint.pkl" := by
  by_cases hne : (ingestFilesToProcess skipE files db cp).isEmpty
  · have htb : toBatches bs (ingestFilesToProcess skipE files db cp) = [] := by
      rw [List.isEmpty_iff.mp hne]
      rfl
    rw [ingest_eq_of_no_new source bs skipE dr files db cp hne, htb]
    refine ⟨?_, rfl, ?_, rfl⟩
    · intro op hop
      exact absurd hop (List.not_mem_nil op)
    · intro hcontra
      rw [hne] at hcontra
      exact absurd hcontra (by simp)
  · have hne2 : (ingestFilesToProcess skipE files db cp).isEmpty = false :=
      Bool.eq_false_iff.mpr hne
    have hfe : files.isEmpty = false := by
      cases hl : files with
      | nil =>
        exfalso
        refine hne ?_
        rw [List.isEmpty_iff]
        unfold ingestFilesToProcess filesToProcess
        rw [hl]
        rfl
      | cons a l => rfl
    rw [ingest_eq_of_new source bs skipE dr files db cp hfe hne2]
    refine ⟨?_, ?_, ?_, rfl⟩
    · intro op hop
      rcases List.mem_append.mp hop with h1 | h1
      · exact ingestBatches_fsOps_writes (checkpointPath source) dr _ 0 _
          (by intro op2 hop2; exact absurd hop2 (List.not_mem_nil op2)) op h1
      · rcases List.mem_singleton.mp h1 with rfl
        simp [save_checkpoint, FsOp.isDirectWriteTo]
    · have h := ingestBatches_midSaves (checkpointPath source) dr
        (toBatches bs (ingestFilesToProcess skipE files db cp)) 0
        ⟨(if skipE then cp else ∅), [], [], []⟩
      simpa using h
    · intro _
      have h := ingestBatches_fsOps_length (checkpointPath source) dr
        (toBatches bs (ingestFilesToProcess skipE files db cp)) 0
        ⟨(if skipE then cp else ∅), [], [], []⟩
      simp only [List.length_nil, Nat.add_zero, Nat.zero_add] at h
      simp only [List.length_append, save_checkpoint, List.length_singleton]
      omega

/-- Witness for C2 (amended) at a concrete input: a run over one new image has
exactly one checkpoint save (the final one) and no mid-run save. -/
theorem C2_witness :
    (ingest_mimic_cxr "/w" 2 true false [⟨"w1", "dcm", 1, true⟩] ∅ ∅).fsOps.length =
      (ingest_mimic_cxr "/w" 2 true false [⟨"w1", "dcm", 1, true⟩] ∅ ∅).midSaves.length + 1 :=
  (C2_amended "/w" 2 true false [⟨"w1", "dcm", 1, true⟩] ∅ ∅).2.2.1 (by decide)

/-- Claim C3 (confirmed): with `skip_existing`, every discovered image id
already present in the database or in the checkpoint set is filtered out of
`files_to_process` (so no INSERT is attempted for it); and a re-run over the
same source list, seeded with the checkpoint set saved by a completed run
(against a database that can only have grown), filters out every file and
attempts zero inserts. -/
theorem C3_skip_existing_rerun (source source2 : String) (bs bs2 : Nat)
    (skipE dr dr2 : Bool) (files : List DcmFile) (db db2 cp : Finset String) :
    (∀ f : DcmFile, f.stem ∈ db ∨ f.stem ∈ cp →
        f ∉ ingestFilesToProcess true files db cp) ∧
      (db ⊆ db2 →
        ingestFilesToProcess true files db2
            (ingest_mimic_cxr source bs skipE dr files db cp).finalProcessed = [] ∧
          (ingest_mimic_cxr source2 bs2 true dr2 files db2
              (ingest_mimic_cxr source bs skipE dr files db cp).finalProcessed).insertAttempts =
            []) := by
  constructor
  · intro f hmem hfilter
    unfold ingestFilesToProcess filesToProcess at hfilter
    rw [List.mem_filter, decide_eq_true_eq] at hfilter
    exact hfilter.2 ⟨rfl, by simpa using hmem⟩
  · intro hsub
    have hempty : ingestFilesToProcess true files db2
        (ingest_mimic_cxr source bs skipE dr files db cp).finalProcessed = [] := by
      unfold ingestFilesToProcess filesToProcess
      rw [List.filter_eq_nil_iff]
      intro f hf
      rw [decide_eq_true_eq]
      intro hcontra
      rcases ingest_finalProcessed_covers source bs skipE dr files db cp f hf with h1 | h1
      · have hdb : f.stem ∈ db := by
          cases hsk : skipE
          · rw [hsk] at h1
            exact absurd h1 (Finset.not_mem_empty _)
          · rw [hsk] at h1
            exact h1
        exact hcontra ⟨rfl, by simp [hsub hdb]⟩
      · exact hcontra ⟨rfl, by simp [h1]⟩
    refine ⟨hempty, ?_⟩
    rw [ingest_eq_of_no_new source2 bs2 true dr2 files db2
      (ingest_mimic_cxr source bs skipE dr files db cp).finalProcessed
      (by rw [hempty]; rfl)]

/-- Witness for C3 at a concrete input: re-running over the same one-file
source with the first run's checkpoint set attempts zero inserts. -/
theorem C3_witness :
    (ingest_mimic_cxr "/r2" 2 true false [⟨"a", "dcm", 1, true⟩] ∅
        (ingest_mimic_cxr "/r1" 2 true false [⟨"a", "dcm", 1, true⟩] ∅ ∅).finalProcessed).insertAttempts =
      [] :=
  ((C3_skip_existing_rerun "/r1" "/r2" 2 2 true false false
      [⟨"a", "dcm", 1, true⟩] ∅ ∅ ∅).2 (Finset.Subset.refl ∅)).2

/-! ## Relationship insertion and the reset handler -/

/-- Claim C6 (confirmed): `insert_relationship` preserves uniqueness of the
(source, target, type) triple: it inserts a new row exactly when no row with
that triple exists, returns `False` and leaves the table unchanged otherwise,
and a table with unique triples keeps unique triples. -/
theorem C6_relationship_unique (table : List RelRow) (s t : Int) (ty : String)
    (conf : ℚ) (rid : Option String) :
    (uniqueTriples table →
        uniqueTriples (insert_relationship table s t ty conf rid).2) ∧
      (tripleExists table s t ty = true →
        insert_relationship table s t ty conf rid = (false, table)) ∧
      (tripleExists table s t ty = false →
        insert_relationship table s t ty conf rid =
          (true, table ++ [⟨s, t, ty, conf, rid⟩])) := by
  refine ⟨?_, ?_, ?_⟩
  · intro huniq
    by_cases hex : tripleExists table s t ty = true
    · simpa [insert_relationship, hex] using huniq
    · have hex2 : tripleExists table s t ty = false := Bool.eq_false_iff.mpr hex
      have hnone : ∀ r ∈ table, ¬ (r.source = s ∧ r.target = t ∧ r.rtype = ty) := by
        intro r hr hc
        refine hex ?_
        unfold tripleExists
        rw [List.any_eq_true]
        exact ⟨r, hr, by rw [decide_eq_true_eq]; exact hc⟩
      simp only [insert_relationship, hex2, Bool.false_eq_true, if_false]
      rw [uniqueTriples, List.pairwise_append]
      refine ⟨huniq, List.pairwise_singleton _ _, ?_⟩
      intro a ha b hb
      rcases List.mem_singleton.mp hb with rfl
      exact hnone a ha
  · intro hex
    simp [insert_relationship, hex]
  · intro hex
    simp [insert_relationship, hex]

/-- Witness for C6 at a concrete input: inserting a second distinct edge keeps
the uniqueness invariant. -/
theorem C6_witness :
    uniqueTriples
      (insert_relationship [⟨1, 2, "treated_by", 1, none⟩] 1 3 "presents_with" 1 none).2 :=
  (C6_relationship_unique [⟨1, 2, "treated_by", 1, none⟩] 1 3 "presents_with" 1 none).1
    (by decide)

/-- Claim C10 is false as stated: on a session without a session id, `/reset`
also writes the freshly chosen `sid` into the session (inside `get_bot`), so a
session field other than `patient_id` is modified. -/
theorem C10_counterexample :
    (reset ⟨none, some 5, []⟩ none none none).session.sid = some "anon" ∧
      (⟨none, some 5, []⟩ : Session).sid = none := by
  constructor
  · decide
  · decide

theorem reset_session_eq (s : Session) (header remoteAddr cpf : Option String) :
    (reset s header remoteAddr cpf).session =
      if clearsPatient cpf then { get_bot s header remoteAddr with patientId := none }
      else get_bot s header remoteAddr := rfl

theorem get_bot_extra (s : Session) (h r : Option String) :
    (get_bot s h r).extra = s.extra := by
  unfold get_bot
  rcases s with ⟨sid0, pid0, ex0⟩
  cases sid0 with
  | none => rfl
  | some v =>
    by_cases hv : (v != "") = true
    · show (if (v != "") = true then (⟨some v, pid0, ex0⟩ : Session)
          else ⟨some (chooseSid h r), pid0, ex0⟩).extra = ex0
      rw [if_pos hv]
    · show (if (v != "") = true then (⟨some v, pid0, ex0⟩ : Session)
          else ⟨some (chooseSid h r), pid0, ex0⟩).extra = ex0
      rw [if_neg hv]

theorem get_bot_patientId (s : Session) (h r : Option String) :
    (get_bot s h r).patientId = s.patientId := by
  unfold get_bot
  rcases s with ⟨sid0, pid0, ex0⟩
  cases sid0 with
  | none => rfl
  | some v =>
    by_cases hv : (v != "") = true
    · show (if (v != "") = true then (⟨some v, pid0, ex0⟩ : Session)
          else ⟨some (chooseSid h r), pid0, ex0⟩).patientId = pid0
      rw [if_pos hv]
    · show (if (v != "") = true then (⟨some v, pid0, ex0⟩ : Session)
          else ⟨some (chooseSid h r), pid0, ex0⟩).patientId = pid0
      rw [if_neg hv]

theorem get_bot_sid_of_truthy (s : Session) (h r : Option String) (v : String)
    (hv : s.sid = some v) (hvne : v ≠ "") : (get_bot s h r).sid = s.sid := by
  unfold get_bot
  rw [hv]
  show (if (v != "") = true then s
      else { s with sid := some (chooseSid h r) }).sid = some v
  rw [if_pos (by simpa using hvne)]
  exact hv

/-- Claim C10 (amended): `/reset` always resets the session's bot conversation
state and returns `ok: true` with message "Chat reset."; it removes
`patient_id` exactly when the `clear_patient` form field, stripped and
lower-cased, is "true", "1" or "yes", and leaves it unchanged otherwise; it
modifies no other session field, except that a session with no (non-empty)
session id gets one assigned by `get_bot`. -/
theorem C10_amended (s : Session) (header remoteAddr cpf : Option String) :
    (reset s header remoteAddr cpf).response = ⟨true, "Chat reset."⟩ ∧
      (reset s header remoteAddr cpf).botResetCalled = true ∧
      (reset s header remoteAddr cpf).session.extra = s.extra ∧
      (reset s header remoteAddr cpf).session.patientId =
        (if clearsPatient cpf then none else s.patientId) ∧
      (∀ v, s.sid = some v → v ≠ "" → (reset s header remoteAddr cpf).session.sid = s.sid) := by
  refine ⟨rfl, rfl, ?_, ?_, ?_⟩
  · rw [reset_session_eq]
    by_cases hc : clearsPatient cpf
    · rw [if_pos hc]
      exact get_bot_extra s header remoteAddr
    · rw [if_neg hc]
      exact get_bot_extra s header remoteAddr
  · rw [reset_session_eq]
    by_cases hc : clearsPatient cpf
    · rw [if_pos hc, if_pos hc]
    · rw [if_neg hc, if_neg hc]
      exact get_bot_patientId s header remoteAddr
  · intro v hv hvne
    rw [reset_session_eq]
    by_cases hc : clearsPatient cpf
    · rw [if_pos hc]
      exact get_bot_sid_of_truthy s header remoteAddr v hv hvne
    · rw [if_neg hc]
      exact get_bot_sid_of_truthy s header remoteAddr v hv hvne

/-- Witness for C10 (amended) at a concrete input: a session that already has
a session id keeps it across `/reset`. -/
theorem C10_witness :
    (reset ⟨some "u7", some 3, []⟩ none none (some "no")).session.sid = some "u7" :=
  (C10_amended ⟨some "u7", some 3, []⟩ none none (some "no")).2.2.2.2 "u7" rfl (by decide)
